import Mathlib

/-!
Shallow embedding of the durable-chat server (`src/server/index.ts`, class
`Chat`): a realtime chat relay whose `onMessage` handler rebroadcasts raw
client payloads, upserts parsed `add`/`update` events into an in-memory
message list mirrored to a SQL table, and, for each `add`, streams an AI
assistant reply as a sequence of `update` broadcasts.

The embedding models the per-room sequential timeline: state is the
in-memory `messages` array plus the durable `messages` SQL table, and every
handler returns its successor state together with the ordered trace of
observable actions (raw relays, broadcasts, unicast sends, the backend
invocation, and store upserts).
-/

namespace DurableChat

/-- A chat message row: `{id, user, role, content}` (`ChatMessage` in
`src/shared`); all fields are strings in the source. -/
structure ChatMessage where
  id : String
  user : String
  role : String
  content : String
deriving DecidableEq

/-- The wire-level `Message` union: `{type:"all"}` snapshots and
`{type:"add"|"update"}` events carrying the message fields. -/
inductive WireMessage where
  | all (messages : List ChatMessage)
  | add (m : ChatMessage)
  | update (m : ChatMessage)
deriving DecidableEq

/-- One row of the durable `messages` SQL table, minus its primary key. -/
structure SqlRow where
  user : String
  role : String
  content : String
deriving DecidableEq

/-- Per-room server state: the in-memory `this.messages` array and the
durable SQL table (an association list keyed by message id, in insertion
order, mirroring `id TEXT PRIMARY KEY`). -/
structure ServerState where
  messages : List ChatMessage
  table : List (String × SqlRow)
deriving DecidableEq

/-- The room state at start with no prior durable data. -/
def emptyState : ServerState := ⟨[], []⟩

/-- Reading the durable row for one id (`id TEXT PRIMARY KEY`). -/
def sqlLookup (i : String) : List (String × SqlRow) → Option SqlRow
  | [] => none
  | (k, v) :: rest => if k = i then some v else sqlLookup i rest

/-- The SQL statement `INSERT INTO messages (id, user, role, content)
VALUES (?, ?, ?, ?) ON CONFLICT (id) DO UPDATE SET content = ?`: a fresh id
inserts a full row; a conflicting id overwrites only the `content` column. -/
def sqlUpsert (t : List (String × SqlRow)) (m : ChatMessage) :
    List (String × SqlRow) :=
  if (sqlLookup m.id t).isSome then
    t.map (fun p => if p.1 = m.id then (p.1, { p.2 with content := m.content }) else p)
  else
    t ++ [(m.id, ⟨m.user, m.role, m.content⟩)]

/-- The body of the `this.messages.map` callback in `saveMessage`: an entry
whose id matches the incoming message is replaced wholesale by it. -/
def replaceById (m : ChatMessage) (x : ChatMessage) : ChatMessage :=
  if x.id = m.id then m else x

/-- `saveMessage(message)`: if a message with the same id exists in memory,
replace every such entry in place via `map`; otherwise `push`. Then run the
durable upsert-by-id that overwrites only `content` on conflict. -/
def saveMessage (st : ServerState) (m : ChatMessage) : ServerState :=
  { messages :=
      if st.messages.any (fun x => x.id = m.id) then
        st.messages.map (replaceById m)
      else
        st.messages ++ [m],
    table := sqlUpsert st.table m }

/-- One observable action of a handler, in program order:
raw rebroadcast of inbound bytes (`this.broadcast(message)`), unicast send
(`connection.send`), system broadcast (`broadcastMessage`), completion
backend invocation (`this.env.Ai.run` with its `{content, role}` prompt),
or a store upsert (`saveMessage`). -/
inductive Action where
  | relayRaw (raw : String)
  | send (msg : WireMessage)
  | broadcast (msg : WireMessage)
  | invoke (prompt : List (String × String))
  | save (m : ChatMessage)
deriving DecidableEq

/-- One parsed token-event of the completion stream: either a continuation
chunk whose `JSON.parse(event.data).response` is the text fragment, or the
`"[DONE]"` end-of-stream marker. -/
inductive TokenEvent where
  | fragment (s : String)
  | done
deriving DecidableEq

/-- Outcome of `JSON.parse` on the inbound payload: `malformed` when the
parse throws, otherwise the parsed event, classified by its `type` tag
(`add`, `update`, or anything else). -/
inductive ParseOutcome where
  | malformed
  | add (m : ChatMessage)
  | update (m : ChatMessage)
  | other
deriving DecidableEq

/-- `onConnect`: send the newly accepted connection the full current
message log as one `{type:"all"}` snapshot; nothing else is sent. -/
def onConnect (st : ServerState) : List Action :=
  [Action.send (WireMessage.all st.messages)]

/-- One iteration of the `for await (const event of eventStream)` loop,
threading the state, the accumulating `buffer`, and the trace so far:
a continuation chunk appends its fragment to the buffer and broadcasts the
buffer plus the `"..."` typing suffix; the `"[DONE]"` marker saves the
bare buffer to the store and broadcasts it as the final update. -/
def handleToken (ai : ChatMessage) :
    ServerState × String × List Action → TokenEvent →
    ServerState × String × List Action
  | (st, buffer, tr), TokenEvent.fragment s =>
      (st, buffer ++ s,
        tr ++ [Action.broadcast (WireMessage.update { ai with content := buffer ++ s ++ "..." })])
  | (st, buffer, tr), TokenEvent.done =>
      (saveMessage st { ai with content := buffer }, buffer,
        tr ++ [Action.save { ai with content := buffer },
               Action.broadcast (WireMessage.update { ai with content := buffer })])

/-- The whole token-stream loop, started with an empty buffer. -/
def runStream (ai : ChatMessage) (st : ServerState) (events : List TokenEvent) :
    ServerState × String × List Action :=
  events.foldl (handleToken ai) (st, "", [])

/-- The assistant placeholder `{id: nanoid(8), content: "...", user: "AI",
role: "assistant"}`; `aiId` stands for the generated `nanoid(8)` value. -/
def aiPlaceholder (aiId : String) : ChatMessage :=
  ⟨aiId, "AI", "assistant", "..."⟩

/-- The `parsed.type === "add"` branch of `onMessage`, after the raw relay:
save the parsed message, broadcast the assistant placeholder as an `add`,
invoke the backend with the current log mapped to `{content, role}` pairs,
save the placeholder, then consume the token stream. Returns the successor
state and the full action trace including the initial raw relay. -/
def onMessageAdd (st : ServerState) (raw : String) (parsed : ChatMessage)
    (aiId : String) (events : List TokenEvent) : ServerState × List Action :=
  let st1 := saveMessage st parsed
  let ai := aiPlaceholder aiId
  let prompt := st1.messages.map (fun m => (m.content, m.role))
  let st2 := saveMessage st1 ai
  let res := runStream ai st2 events
  (res.1,
    [Action.relayRaw raw, Action.save parsed, Action.broadcast (WireMessage.add ai),
     Action.invoke prompt, Action.save ai] ++ res.2.2)

/-- Result of one `onMessage` call: the successor state, the trace of
actions emitted before any exception, and whether the handler threw
(`JSON.parse` rejecting the raw payload is the only throw site modelled). -/
structure HandlerResult where
  state : ServerState
  trace : List Action
  threw : Bool
deriving DecidableEq

/-- `onMessage`: first rebroadcast the raw bytes, then `JSON.parse` the
payload (throwing on malformed input), then dispatch on `parsed.type`:
`"add"` runs the assistant-reply pipeline, `"update"` saves the parsed
message, and any other shape falls through with no structured effect. -/
def onMessage (st : ServerState) (raw : String) (po : ParseOutcome)
    (aiId : String) (events : List TokenEvent) : HandlerResult :=
  match po with
  | ParseOutcome.malformed => ⟨st, [Action.relayRaw raw], true⟩
  | ParseOutcome.add m =>
      let res := onMessageAdd st raw m aiId events
      ⟨res.1, res.2, false⟩
  | ParseOutcome.update m =>
      ⟨saveMessage st m, [Action.relayRaw raw, Action.save m], false⟩
  | ParseOutcome.other => ⟨st, [Action.relayRaw raw], false⟩

/-- The `content` fields of all `update` broadcasts for id `i`, in trace
order. -/
def updatesFor (i : String) (tr : List Action) : List String :=
  tr.filterMap (fun a =>
    match a with
    | Action.broadcast (WireMessage.update m) =>
        if m.id = i then some m.content else none
    | _ => none)

/-- Strip the transient `"..."` typing-indicator suffix, when present. -/
def stripTyping (s : String) : String :=
  if s.data.reverse.take 3 = ['.', '.', '.'] then
    String.mk (s.data.reverse.drop 3).reverse
  else s

/-- The content stored in memory for id `i`, if present. -/
def contentOf (st : ServerState) (i : String) : Option String :=
  (st.messages.find? (fun m => m.id = i)).map (fun m => m.content)

/-- Concatenation of a list of text fragments in arrival order — the value
the `buffer` variable holds after appending each fragment in turn. -/
def sconcat : List String → String
  | [] => ""
  | s :: rest => s ++ sconcat rest

/-- The broadcasts emitted by the continuation iterations of the stream
loop, starting from buffer value `b`: one `update` per fragment, carrying
the grown buffer plus the `"..."` typing suffix. -/
def fragTrace (ai : ChatMessage) (b : String) : List String → List Action
  | [] => []
  | f :: rest =>
      Action.broadcast (WireMessage.update { ai with content := b ++ f ++ "..." })
        :: fragTrace ai (b ++ f) rest

/-- `occursBefore a b tr`: some occurrence of `a` strictly precedes some
occurrence of `b` in the trace `tr`. -/
def occursBefore (a b : Action) : List Action → Bool
  | [] => false
  | x :: rest => (x = a && rest.contains b) || occursBefore a b rest

/-- Processing a sequence of `add` events through the store upsert,
starting from the empty room state. -/
def processAdds (msgs : List ChatMessage) : ServerState :=
  msgs.foldl saveMessage emptyState

/-! ### Lemmas about the store upsert -/

theorem saveMessage_messages_of_not_mem (st : ServerState) (m : ChatMessage)
    (h : st.messages.any (fun x => x.id = m.id) = false) :
    (saveMessage st m).messages = st.messages ++ [m] := by
  simp [saveMessage, h]

theorem saveMessage_messages_of_mem (st : ServerState) (m : ChatMessage)
    (h : st.messages.any (fun x => x.id = m.id) = true) :
    (saveMessage st m).messages = st.messages.map (replaceById m) := by
  simp [saveMessage, h]

theorem mem_saveMessage {st : ServerState} {m x : ChatMessage}
    (h : x ∈ (saveMessage st m).messages) : x ∈ st.messages ∨ x = m := by
  by_cases hmem : st.messages.any (fun y => y.id = m.id) = true
  · rw [saveMessage_messages_of_mem st m hmem] at h
    rcases List.mem_map.1 h with ⟨y, hy, hxy⟩
    unfold replaceById at hxy
    by_cases hid : y.id = m.id
    · right; rw [if_pos hid] at hxy; exact hxy.symm
    · left; rw [if_neg hid] at hxy; exact hxy ▸ hy
  · rw [saveMessage_messages_of_not_mem st m (Bool.eq_false_iff.2 hmem)] at h
    rcases List.mem_append.1 h with h | h
    · exact Or.inl h
    · exact Or.inr (List.mem_singleton.1 h)

theorem map_id_map_replaceById (l : List ChatMessage) (m : ChatMessage) :
    (l.map (replaceById m)).map (fun x => x.id) = l.map (fun x => x.id) := by
  rw [List.map_map]
  apply List.map_congr_left
  intro x _
  unfold replaceById
  by_cases h : x.id = m.id
  · simp [if_pos h, h]
  · simp [if_neg h]

theorem replaceById_self (m : ChatMessage) : replaceById m m = m := by
  unfold replaceById
  simp

theorem any_id_saveMessage (st : ServerState) (m : ChatMessage) :
    (saveMessage st m).messages.any (fun x => x.id = m.id) = true := by
  by_cases h : st.messages.any (fun x => x.id = m.id) = true
  · rw [saveMessage_messages_of_mem st m h]
    rcases List.any_eq_true.1 h with ⟨x, hx, hid⟩
    refine List.any_eq_true.2 ⟨replaceById m x, List.mem_map_of_mem _ hx, ?_⟩
    have hid' : x.id = m.id := of_decide_eq_true hid
    unfold replaceById
    simp [if_pos hid']
  · rw [saveMessage_messages_of_not_mem st m (Bool.eq_false_iff.2 h)]
    simp

theorem replaceById_fix_of_mem_save {st : ServerState} {m x : ChatMessage}
    (h : x ∈ (saveMessage st m).messages) : replaceById m x = x := by
  by_cases hmem : st.messages.any (fun y => y.id = m.id) = true
  · rw [saveMessage_messages_of_mem st m hmem] at h
    rcases List.mem_map.1 h with ⟨y, _, hxy⟩
    subst hxy
    unfold replaceById
    by_cases hid : y.id = m.id
    · simp [if_pos hid]
    · simp [if_neg hid, hid]
  · rw [saveMessage_messages_of_not_mem st m (Bool.eq_false_iff.2 hmem)] at h
    rcases List.mem_append.1 h with h | h
    · have : ¬(x.id = m.id) := by
        intro hc
        exact hmem (List.any_eq_true.2 ⟨x, h, decide_eq_true hc⟩)
      unfold replaceById
      simp [if_neg this]
    · rw [List.mem_singleton.1 h]
      exact replaceById_self m

/-! ### Claim theorems: store upsert algebra -/

/-- C4: applying the store upsert (`saveMessage`) twice with the same
message — same id, same content — leaves the in-memory Message Log in the
same state as applying it once. -/
theorem c4_saveMessage_idempotent (st : ServerState) (m : ChatMessage) :
    (saveMessage (saveMessage st m) m).messages = (saveMessage st m).messages := by
  rw [saveMessage_messages_of_mem _ m (any_id_saveMessage st m)]
  conv_rhs => rw [← List.map_id ((saveMessage st m).messages)]
  apply List.map_congr_left
  intro x hx
  exact replaceById_fix_of_mem_save hx

/-- C6: upserting a message whose id is already present replaces exactly
the matching entry in place (`map replaceById`), preserving positions and
leaving all other entries unchanged; and the upsert never introduces a
duplicate id into a log whose ids are distinct. -/
theorem c6_upsert_replace_and_nodup (st : ServerState) (m : ChatMessage) :
    (st.messages.any (fun x => x.id = m.id) = true →
      (saveMessage st m).messages = st.messages.map (replaceById m))
    ∧ ((st.messages.map (fun x => x.id)).Nodup →
      ((saveMessage st m).messages.map (fun x => x.id)).Nodup) := by
  constructor
  · exact saveMessage_messages_of_mem st m
  · intro hnd
    by_cases h : st.messages.any (fun x => x.id = m.id) = true
    · rw [saveMessage_messages_of_mem st m h, map_id_map_replaceById]
      exact hnd
    · rw [saveMessage_messages_of_not_mem st m (Bool.eq_false_iff.2 h)]
      rw [List.map_append]
      simp only [List.map_cons, List.map_nil]
      rw [List.nodup_append]
      refine ⟨hnd, List.nodup_singleton _, ?_⟩
      intro a ha hb
      rw [List.mem_singleton.1 hb] at ha
      rcases List.mem_map.1 ha with ⟨x, hx, hid⟩
      exact h (List.any_eq_true.2 ⟨x, hx, decide_eq_true hid⟩)

/-- C6 witness: a concrete log with two entries; upserting an update for
the first id replaces it in place, and distinct ids stay distinct. -/
theorem c6_upsert_replace_and_nodup_witness :
    (([⟨"m1", "alice", "user", "hi"⟩, ⟨"m2", "bob", "user", "yo"⟩] :
        List ChatMessage).any (fun x => x.id = "m1") = true)
    ∧ (saveMessage ⟨[⟨"m1", "alice", "user", "hi"⟩, ⟨"m2", "bob", "user", "yo"⟩], []⟩
        ⟨"m1", "alice", "user", "hi there"⟩).messages
      = [⟨"m1", "alice", "user", "hi"⟩, ⟨"m2", "bob", "user", "yo"⟩].map
          (replaceById ⟨"m1", "alice", "user", "hi there"⟩)
    ∧ ((saveMessage ⟨[⟨"m1", "alice", "user", "hi"⟩, ⟨"m2", "bob", "user", "yo"⟩], []⟩
        ⟨"m1", "alice", "user", "hi there"⟩).messages.map (fun x => x.id)).Nodup :=
  ⟨by decide,
   (c6_upsert_replace_and_nodup ⟨[⟨"m1", "alice", "user", "hi"⟩, ⟨"m2", "bob", "user", "yo"⟩], []⟩
      ⟨"m1", "alice", "user", "hi there"⟩).1 (by decide),
   (c6_upsert_replace_and_nodup ⟨[⟨"m1", "alice", "user", "hi"⟩, ⟨"m2", "bob", "user", "yo"⟩], []⟩
      ⟨"m1", "alice", "user", "hi there"⟩).2 (by decide)⟩

theorem foldl_saveMessage_fresh (msgs : List ChatMessage) (st : ServerState)
    (hfresh : ∀ m ∈ msgs, ∀ x ∈ st.messages, x.id ≠ m.id)
    (hnd : (msgs.map (fun x => x.id)).Nodup) :
    (msgs.foldl saveMessage st).messages = st.messages ++ msgs := by
  induction msgs generalizing st with
  | nil => simp
  | cons m rest ih =>
    have hany : st.messages.any (fun x => x.id = m.id) = false := by
      apply List.any_eq_false.2
      intro x hx
      simp only [decide_eq_true_eq]
      exact hfresh m (List.mem_cons_self m rest) x hx
    have hmsgs : (saveMessage st m).messages = st.messages ++ [m] :=
      saveMessage_messages_of_not_mem _ _ hany
    rw [List.foldl_cons]
    rw [ih (saveMessage st m) ?_ ?_]
    · rw [hmsgs, List.append_assoc, List.singleton_append]
    · intro m' hm' x hx
      rw [hmsgs] at hx
      rcases List.mem_append.1 hx with hx | hx
      · exact hfresh m' (List.mem_cons_of_mem m hm') x hx
      · rw [List.mem_singleton.1 hx]
        intro hc
        have : m.id ∈ rest.map (fun x => x.id) :=
          List.mem_map.2 ⟨m', hm', hc.symm⟩
        rw [List.map_cons] at hnd
        exact (List.nodup_cons.1 hnd).1 this
    · rw [List.map_cons] at hnd
      exact (List.nodup_cons.1 hnd).2

/-- C5: processing any sequence of `add` events with pairwise-distinct ids
from the empty room leaves the Message Log equal to that sequence: exactly
one entry per id, in first-add order. -/
theorem c5_distinct_adds (msgs : List ChatMessage)
    (hnd : (msgs.map (fun x => x.id)).Nodup) :
    (processAdds msgs).messages = msgs := by
  unfold processAdds
  rw [foldl_saveMessage_fresh msgs emptyState ?_ hnd]
  · rfl
  · intro m _ x hx
    simp [emptyState] at hx

/-- C5 witness: two adds with distinct ids end up as exactly those two
entries, in arrival order. -/
theorem c5_distinct_adds_witness :
    (([⟨"m1", "alice", "user", "hi"⟩, ⟨"m2", "bob", "user", "yo"⟩] :
        List ChatMessage).map (fun x => x.id)).Nodup
    ∧ (processAdds [⟨"m1", "alice", "user", "hi"⟩, ⟨"m2", "bob", "user", "yo"⟩]).messages
      = [⟨"m1", "alice", "user", "hi"⟩, ⟨"m2", "bob", "user", "yo"⟩] :=
  ⟨by decide,
   c5_distinct_adds [⟨"m1", "alice", "user", "hi"⟩, ⟨"m2", "bob", "user", "yo"⟩] (by decide)⟩

/-- C8: `onConnect` sends the new connection exactly one event, and that
event is the `{type:"all"}` snapshot of the full current Message Log in
its current order; nothing else is sent to the connection by the
acceptance handler, so nothing can precede the snapshot. -/
theorem c8_onConnect_snapshot (st : ServerState) :
    onConnect st = [Action.send (WireMessage.all st.messages)]
    ∧ (onConnect st).length = 1 :=
  ⟨rfl, rfl⟩

/-! ### Lemmas about the streaming loop -/

theorem foldl_handleToken_spec (ai : ChatMessage) (frags : List String)
    (st : ServerState) (b : String) (tr : List Action) :
    (frags.map TokenEvent.fragment ++ [TokenEvent.done]).foldl (handleToken ai) (st, b, tr)
    = (saveMessage st { ai with content := b ++ sconcat frags },
       b ++ sconcat frags,
       tr ++ fragTrace ai b frags
          ++ [Action.save { ai with content := b ++ sconcat frags },
              Action.broadcast (WireMessage.update { ai with content := b ++ sconcat frags })]) := by
  induction frags generalizing st b tr with
  | nil =>
    simp [handleToken, sconcat, fragTrace, String.append_empty]
  | cons f rest ih =>
    simp only [List.map_cons, List.cons_append, List.foldl_cons]
    rw [show handleToken ai (st, b, tr) (TokenEvent.fragment f)
          = (st, b ++ f,
             tr ++ [Action.broadcast (WireMessage.update { ai with content := b ++ f ++ "..." })])
        from rfl]
    rw [ih st (b ++ f) _]
    simp [sconcat, fragTrace, String.append_assoc, List.append_assoc]

theorem runStream_spec (ai : ChatMessage) (st : ServerState) (frags : List String) :
    runStream ai st (frags.map TokenEvent.fragment ++ [TokenEvent.done])
    = (saveMessage st { ai with content := sconcat frags },
       sconcat frags,
       fragTrace ai "" frags
        ++ [Action.save { ai with content := sconcat frags },
            Action.broadcast (WireMessage.update { ai with content := sconcat frags })]) := by
  unfold runStream
  rw [foldl_handleToken_spec]
  simp [String.empty_append]

theorem onMessageAdd_trace (st : ServerState) (raw : String) (parsed : ChatMessage)
    (aiId : String) (frags : List String) :
    onMessageAdd st raw parsed aiId (frags.map TokenEvent.fragment ++ [TokenEvent.done])
    = (saveMessage (saveMessage (saveMessage st parsed) (aiPlaceholder aiId))
         { aiPlaceholder aiId with content := sconcat frags },
       [Action.relayRaw raw, Action.save parsed,
        Action.broadcast (WireMessage.add (aiPlaceholder aiId)),
        Action.invoke ((saveMessage st parsed).messages.map (fun m => (m.content, m.role))),
        Action.save (aiPlaceholder aiId)]
        ++ fragTrace (aiPlaceholder aiId) "" frags
        ++ [Action.save { aiPlaceholder aiId with content := sconcat frags },
            Action.broadcast (WireMessage.update { aiPlaceholder aiId with content := sconcat frags })]) := by
  unfold onMessageAdd
  dsimp only
  rw [runStream_spec]
  simp [List.append_assoc]

theorem fresh_not_in_save (st : ServerState) (parsed : ChatMessage) (aiId : String)
    (h1 : aiId ∉ st.messages.map (fun x => x.id)) (h2 : aiId ≠ parsed.id) :
    ∀ x ∈ (saveMessage st parsed).messages, x.id ≠ aiId := by
  intro x hx
  rcases mem_saveMessage hx with h | h
  · intro hc
    exact h1 (List.mem_map.2 ⟨x, h, hc⟩)
  · rw [h]
    exact fun hc => h2 hc.symm

theorem find?_append_none {α : Type} (p : α → Bool) (l1 l2 : List α)
    (h : l1.find? p = none) : (l1 ++ l2).find? p = l2.find? p := by
  induction l1 with
  | nil => rfl
  | cons a l ih =>
    by_cases hpa : p a = true
    · rw [List.find?_cons_of_pos _ hpa] at h
      exact absurd h (by simp)
    · rw [List.find?_cons_of_neg _ (by simpa using hpa)] at h
      rw [List.cons_append, List.find?_cons_of_neg _ (by simpa using hpa)]
      exact ih h

theorem contentOf_after_finalize (st : ServerState) (parsed : ChatMessage)
    (aiId : String) (c : String)
    (h1 : aiId ∉ st.messages.map (fun x => x.id)) (h2 : aiId ≠ parsed.id) :
    contentOf
      (saveMessage (saveMessage (saveMessage st parsed) (aiPlaceholder aiId))
        { aiPlaceholder aiId with content := c }) aiId = some c := by
  have hfresh := fresh_not_in_save st parsed aiId h1 h2
  have hany1 : (saveMessage st parsed).messages.any
      (fun x => x.id = (aiPlaceholder aiId).id) = false := by
    apply List.any_eq_false.2
    intro x hx
    simp only [aiPlaceholder, decide_eq_true_eq]
    exact hfresh x hx
  have h2msgs : (saveMessage (saveMessage st parsed) (aiPlaceholder aiId)).messages
      = (saveMessage st parsed).messages ++ [aiPlaceholder aiId] :=
    saveMessage_messages_of_not_mem _ _ hany1
  have hany2 : (saveMessage (saveMessage st parsed) (aiPlaceholder aiId)).messages.any
      (fun x => x.id = ({ aiPlaceholder aiId with content := c } : ChatMessage).id) = true := by
    rw [h2msgs]
    simp [aiPlaceholder]
  have h3msgs := saveMessage_messages_of_mem _ _ hany2
  unfold contentOf
  rw [h3msgs, h2msgs, List.map_append]
  have hleft : ((saveMessage st parsed).messages.map
      (replaceById { aiPlaceholder aiId with content := c })).find?
        (fun m => m.id = aiId) = none := by
    apply List.find?_eq_none.2
    intro x hx
    rcases List.mem_map.1 hx with ⟨y, hy, hxy⟩
    have hid : y.id ≠ aiId := hfresh y hy
    have : replaceById { aiPlaceholder aiId with content := c } y = y := by
      unfold replaceById
      rw [if_neg (by simpa [aiPlaceholder] using hid)]
    rw [← hxy, this]
    simpa using hid
  rw [find?_append_none _ _ _ hleft]
  simp [aiPlaceholder, replaceById]

theorem updatesFor_append (i : String) (tr1 tr2 : List Action) :
    updatesFor i (tr1 ++ tr2) = updatesFor i tr1 ++ updatesFor i tr2 := by
  unfold updatesFor
  exact List.filterMap_append _ _ _

/-! ### Claim theorems: streaming pipeline -/

/-- C7: for every token stream of fragments ending in the end-of-stream
marker, the handler's trace ends with the store upsert of the accumulated
buffer (no typing suffix) followed by exactly one final `update` broadcast
carrying that exact content, and the persisted content for the reply id is
that buffer. The full trace is characterized, so the marker contributes
exactly the final save-then-broadcast pair. -/
theorem c7_finalize_upsert_then_update (st : ServerState) (raw : String)
    (parsed : ChatMessage) (aiId : String) (frags : List String)
    (h1 : aiId ∉ st.messages.map (fun x => x.id)) (h2 : aiId ≠ parsed.id) :
    (onMessageAdd st raw parsed aiId (frags.map TokenEvent.fragment ++ [TokenEvent.done])).2
      = [Action.relayRaw raw, Action.save parsed,
         Action.broadcast (WireMessage.add (aiPlaceholder aiId)),
         Action.invoke ((saveMessage st parsed).messages.map (fun m => (m.content, m.role))),
         Action.save (aiPlaceholder aiId)]
        ++ fragTrace (aiPlaceholder aiId) "" frags
        ++ [Action.save { aiPlaceholder aiId with content := sconcat frags },
            Action.broadcast (WireMessage.update { aiPlaceholder aiId with content := sconcat frags })]
    ∧ contentOf (onMessageAdd st raw parsed aiId
        (frags.map TokenEvent.fragment ++ [TokenEvent.done])).1 aiId
      = some (sconcat frags) := by
  rw [onMessageAdd_trace]
  exact ⟨rfl, contentOf_after_finalize st parsed aiId (sconcat frags) h1 h2⟩

/-- C7 witness: a concrete two-fragment stream ends with content
`"Hello"` persisted for the fresh reply id. -/
theorem c7_finalize_upsert_then_update_witness :
    ("ai1" ∉ ((⟨[], []⟩ : ServerState)).messages.map (fun x => x.id))
    ∧ ("ai1" ≠ (⟨"m1", "alice", "user", "hi"⟩ : ChatMessage).id)
    ∧ contentOf (onMessageAdd ⟨[], []⟩ "raw" ⟨"m1", "alice", "user", "hi"⟩ "ai1"
        (["Hel", "lo"].map TokenEvent.fragment ++ [TokenEvent.done])).1 "ai1"
      = some (sconcat ["Hel", "lo"]) :=
  ⟨by decide, by decide,
   (c7_finalize_upsert_then_update ⟨[], []⟩ "raw" ⟨"m1", "alice", "user", "hi"⟩ "ai1"
      ["Hel", "lo"] (by decide) (by decide)).2⟩

/-- C1 (amended): the content of the LAST broadcast `update` event for the
reply id equals the final content persisted in the Store for that id — the
update contents are cumulative buffers, not increments, so concatenating
them does not reproduce the reply. -/
theorem c1_last_update_eq_persisted (st : ServerState) (raw : String)
    (parsed : ChatMessage) (aiId : String) (frags : List String)
    (h1 : aiId ∉ st.messages.map (fun x => x.id)) (h2 : aiId ≠ parsed.id) :
    (updatesFor aiId (onMessageAdd st raw parsed aiId
        (frags.map TokenEvent.fragment ++ [TokenEvent.done])).2).getLast?
      = some (sconcat frags)
    ∧ contentOf (onMessageAdd st raw parsed aiId
        (frags.map TokenEvent.fragment ++ [TokenEvent.done])).1 aiId
      = some (sconcat frags) := by
  rw [onMessageAdd_trace]
  refine ⟨?_, contentOf_after_finalize st parsed aiId (sconcat frags) h1 h2⟩
  rw [updatesFor_append]
  have hlast : updatesFor aiId
      [Action.save { aiPlaceholder aiId with content := sconcat frags },
       Action.broadcast (WireMessage.update { aiPlaceholder aiId with content := sconcat frags })]
      = [sconcat frags] := by
    simp [updatesFor, aiPlaceholder, List.filterMap]
  rw [hlast]
  exact List.getLast?_concat _

/-- C1 witness: with a single fragment `"Hello"`, the last `update`
broadcast for the reply id carries exactly the persisted `"Hello"`. -/
theorem c1_last_update_eq_persisted_witness :
    ("ai1" ∉ ((⟨[], []⟩ : ServerState)).messages.map (fun x => x.id))
    ∧ ("ai1" ≠ (⟨"m1", "alice", "user", "hi"⟩ : ChatMessage).id)
    ∧ (updatesFor "ai1" (onMessageAdd ⟨[], []⟩ "raw" ⟨"m1", "alice", "user", "hi"⟩ "ai1"
        (["Hello"].map TokenEvent.fragment ++ [TokenEvent.done])).2).getLast?
      = some (sconcat ["Hello"]) :=
  ⟨by decide, by decide,
   (c1_last_update_eq_persisted ⟨[], []⟩ "raw" ⟨"m1", "alice", "user", "hi"⟩ "ai1"
      ["Hello"] (by decide) (by decide)).1⟩

/-- C1 counterexample: with one fragment `"Hello"` the update broadcasts
carry `"Hello..."` then `"Hello"`; concatenating the suffix-stripped
contents gives `"HelloHello"`, which is not the persisted `"Hello"`. -/
theorem c1_counterexample :
    ¬ (contentOf (onMessageAdd ⟨[], []⟩ "raw" ⟨"m1", "alice", "user", "hi"⟩ "ai1"
          [TokenEvent.fragment "Hello", TokenEvent.done]).1 "ai1"
        = some (String.join ((updatesFor "ai1"
            (onMessageAdd ⟨[], []⟩ "raw" ⟨"m1", "alice", "user", "hi"⟩ "ai1"
              [TokenEvent.fragment "Hello", TokenEvent.done]).2).map stripTyping))) := by
  decide

/-- C2 (amended): on a new `add`, the handler relays the raw bytes, saves
the parsed message, broadcasts the fresh-id placeholder as an `add` event
BEFORE invoking the completion backend, and upserts the placeholder into
the Store immediately AFTER the backend invocation, before any token event
is processed. -/
theorem c2_broadcast_before_invoke_save_after (st : ServerState) (raw : String)
    (parsed : ChatMessage) (aiId : String) (events : List TokenEvent) :
    ∃ tl, (onMessageAdd st raw parsed aiId events).2
      = [Action.relayRaw raw, Action.save parsed,
         Action.broadcast (WireMessage.add (aiPlaceholder aiId)),
         Action.invoke ((saveMessage st parsed).messages.map (fun m => (m.content, m.role))),
         Action.save (aiPlaceholder aiId)] ++ tl :=
  ⟨(runStream (aiPlaceholder aiId)
      (saveMessage (saveMessage st parsed) (aiPlaceholder aiId)) events).2.2, rfl⟩

/-- C2 counterexample: in a concrete run the placeholder's store upsert
does not precede the backend invocation — the invocation precedes the
upsert. -/
theorem c2_counterexample :
    occursBefore (Action.save (aiPlaceholder "ai1")) (Action.invoke [("hi", "user")])
      (onMessageAdd ⟨[], []⟩ "raw" ⟨"m1", "alice", "user", "hi"⟩ "ai1" []).2 = false
    ∧ occursBefore (Action.invoke [("hi", "user")]) (Action.save (aiPlaceholder "ai1"))
      (onMessageAdd ⟨[], []⟩ "raw" ⟨"m1", "alice", "user", "hi"⟩ "ai1" []).2 = true := by
  decide

/-- C3 (amended): on a malformed payload the raw bytes are relayed, the
state is untouched, and the handler throws the parse error; on a payload
that parses but is neither `add` nor `update`, the raw bytes are relayed
and processing is a silent no-op with no error. -/
theorem c3_malformed_relay_then_throw (st : ServerState) (raw : String)
    (aiId : String) (events : List TokenEvent) :
    onMessage st raw ParseOutcome.malformed aiId events
      = ⟨st, [Action.relayRaw raw], true⟩
    ∧ onMessage st raw ParseOutcome.other aiId events
      = ⟨st, [Action.relayRaw raw], false⟩ :=
  ⟨rfl, rfl⟩

/-- C3 counterexample: a payload whose `JSON.parse` fails is relayed but
the handler does raise — `threw` is not `false` as the claim demands. -/
theorem c3_counterexample :
    ¬ ((onMessage ⟨[], []⟩ "not json" ParseOutcome.malformed "ai1" []).threw = false) := by
  decide

/-- C9: the prompt passed to the completion backend is the projection of
the Store snapshot taken after saving the user's message but BEFORE the
placeholder upsert (which sits later in the trace), and no entry of that
snapshot has the placeholder's id, so the placeholder is never part of the
prompt. -/
theorem c9_prompt_excludes_placeholder (st : ServerState) (raw : String)
    (parsed : ChatMessage) (aiId : String) (events : List TokenEvent)
    (h1 : aiId ∉ st.messages.map (fun x => x.id)) (h2 : aiId ≠ parsed.id) :
    (∃ tl, (onMessageAdd st raw parsed aiId events).2
      = [Action.relayRaw raw, Action.save parsed,
         Action.broadcast (WireMessage.add (aiPlaceholder aiId)),
         Action.invoke ((saveMessage st parsed).messages.map (fun m => (m.content, m.role))),
         Action.save (aiPlaceholder aiId)] ++ tl)
    ∧ ∀ x ∈ (saveMessage st parsed).messages, x.id ≠ aiId :=
  ⟨⟨(runStream (aiPlaceholder aiId)
      (saveMessage (saveMessage st parsed) (aiPlaceholder aiId)) events).2.2, rfl⟩,
   fresh_not_in_save st parsed aiId h1 h2⟩

/-- C9 witness: with a fresh id `"ai1"`, no message in the snapshot used
for the prompt carries the placeholder id. -/
theorem c9_prompt_excludes_placeholder_witness :
    ("ai1" ∉ ((⟨[], []⟩ : ServerState)).messages.map (fun x => x.id))
    ∧ ("ai1" ≠ (⟨"m1", "alice", "user", "hi"⟩ : ChatMessage).id)
    ∧ ∀ x ∈ (saveMessage ⟨[], []⟩ ⟨"m1", "alice", "user", "hi"⟩).messages, x.id ≠ "ai1" :=
  ⟨by decide, by decide,
   (c9_prompt_excludes_placeholder ⟨[], []⟩ "raw" ⟨"m1", "alice", "user", "hi"⟩ "ai1" []
      (by decide) (by decide)).2⟩

theorem sqlLookup_map_setContent (t : List (String × SqlRow)) (i c : String) (r : SqlRow)
    (h : sqlLookup i t = some r) :
    sqlLookup i (t.map (fun p => if p.1 = i then (p.1, { p.2 with content := c }) else p))
      = some { r with content := c } := by
  induction t with
  | nil => simp [sqlLookup] at h
  | cons a t ih =>
    obtain ⟨k, v⟩ := a
    by_cases hk : k = i
    · subst hk
      rw [show sqlLookup k ((k, v) :: t) = some v from by simp [sqlLookup]] at h
      injection h with hv
      subst hv
      rw [List.map_cons, if_pos (show (k, v).1 = k from rfl)]
      dsimp only
      rw [show ∀ l : List (String × SqlRow), ∀ w : SqlRow, sqlLookup k ((k, w) :: l) = some w from
        fun l w => by simp [sqlLookup]]
    · rw [show sqlLookup i ((k, v) :: t) = sqlLookup i t from by simp [sqlLookup, hk]] at h
      rw [List.map_cons, if_neg (show ¬((k, v).1 = i) from by simpa using hk)]
      rw [show ∀ l : List (String × SqlRow), sqlLookup i ((k, v) :: l) = sqlLookup i l from
        fun l => by simp [sqlLookup, hk]]
      exact ih h

/-- C10: when the id already exists in the durable table, the SQL
`ON CONFLICT (id) DO UPDATE SET content = ?` upsert overwrites only the
`content` column — `user` and `role` keep their first-write values — while
the in-memory upsert replaces the whole entry with the incoming message. -/
theorem c10_durable_updates_content_only (st : ServerState) (m : ChatMessage) (r : SqlRow)
    (hm : st.messages.any (fun x => x.id = m.id) = true)
    (ht : sqlLookup m.id st.table = some r) :
    sqlLookup m.id (saveMessage st m).table = some ⟨r.user, r.role, m.content⟩
    ∧ (saveMessage st m).messages = st.messages.map (replaceById m) := by
  refine ⟨?_, saveMessage_messages_of_mem st m hm⟩
  show sqlLookup m.id (sqlUpsert st.table m) = _
  unfold sqlUpsert
  rw [if_pos (by rw [ht]; rfl)]
  exact sqlLookup_map_setContent st.table m.id m.content r ht

/-- C10 witness: re-upserting id `"m1"` with a different author and role
updates only the durable `content` column, while memory takes all fields. -/
theorem c10_durable_updates_content_only_witness :
    ((⟨[⟨"m1", "alice", "user", "old"⟩], [("m1", ⟨"alice", "user", "old"⟩)]⟩ :
        ServerState)).messages.any
          (fun x => x.id = (⟨"m1", "bob", "assistant", "new"⟩ : ChatMessage).id) = true
    ∧ sqlLookup "m1" ((⟨[⟨"m1", "alice", "user", "old"⟩], [("m1", ⟨"alice", "user", "old"⟩)]⟩ :
        ServerState)).table = some ⟨"alice", "user", "old"⟩
    ∧ sqlLookup "m1" (saveMessage ⟨[⟨"m1", "alice", "user", "old"⟩], [("m1", ⟨"alice", "user", "old"⟩)]⟩
        ⟨"m1", "bob", "assistant", "new"⟩).table
      = some ⟨"alice", "user", "new"⟩ :=
  ⟨by decide, by decide,
   (c10_durable_updates_content_only
      ⟨[⟨"m1", "alice", "user", "old"⟩], [("m1", ⟨"alice", "user", "old"⟩)]⟩
      ⟨"m1", "bob", "assistant", "new"⟩ ⟨"alice", "user", "old"⟩
      (by decide) (by decide)).1⟩

end DurableChat
